import Mathlib

/-!
The color_vizulizer script: flood-fill region detection and region recolouring.

A shallow embedding of `floodFill`, `getColorAtPixel` and the recolour loop of
`applyColorToWall` from `script.js`.

* The image data (`imageData.data`, a `Uint8ClampedArray`) is a `List Nat` of bytes,
  four per pixel, row-major.  Reading outside the array gives `undefined`, modelled
  by `none`; writing outside the array is ignored; written values are clamped to 255.
* The functions are embedded twice.  The first embedding takes integer pixel coordinates
  (`Int`).  The second one (`Unrounded.floodFill` and the other `Unrounded` definitions) takes
  the coordinates as the click handler passes them, unrounded, as rational numbers; the two
  agree on integer coordinates (`unrounded_runSteps_intCast`).
* Arithmetic on coordinates and indices is exact.  JavaScript numbers are doubles, whose
  arithmetic is exact on the integers and halves of small magnitude used in the concrete
  evaluations; the general theorems on rational seeds depend on `Math.min`, `Math.max` and
  comparisons only, or on an index that is at least the length of the array.
* `Math.abs(undefined - n)` is `NaN`, modelled by `none`, and `NaN < threshold` is false.
* The work stack is a list whose head is the top of the stack.
* The `while` loop is modelled by the one-iteration function `floodStep`; `runSteps n`
  is the state after `n` iterations and `floodFill fuel` runs the loop with a bound on
  the number of loop tests, returning `none` when the bound is reached before the
  stack is empty.
-/

namespace ColorVizulizer

/-! ## Data model -/

/-- A colour as read from the image: each channel is a byte or `undefined` (`none`). -/
structure Color where
  r : Option Nat
  g : Option Nat
  b : Option Nat
deriving DecidableEq, Repr

/-- The object `{ left, top, right, bottom }` built by `floodFill`. -/
structure Region where
  left : Int
  top : Int
  right : Int
  bottom : Int
deriving DecidableEq, Repr

/-- The mutable state of the `while` loop of `floodFill`: the stack (head = top) and the region. -/
structure FillState where
  stack : List (Int × Int)
  region : Region
deriving DecidableEq, Repr

/-- Typed-array read `pixels[i]`: `undefined` when `i` is not a valid index. -/
def readByte (pixels : List Nat) (i : Int) : Option Nat :=
  if i < 0 then none else pixels[i.toNat]?

/-- Typed-array write `pixels[i] = v` on a `Uint8ClampedArray`: ignored when `i` is not a
valid index, the stored value clamped to a byte. -/
def writeByte (pixels : List Nat) (i : Int) (v : Nat) : List Nat :=
  if i < 0 then pixels else pixels.set i.toNat (min v 255)

/-! ## `getColorAtPixel` -/

/-- The function `getColorAtPixel(x, y, imageData)`, with `canvas.width = width`. -/
def getColorAtPixel (width : Nat) (x y : Int) (pixels : List Nat) : Color :=
  let index := (y * width + x) * 4
  { r := readByte pixels index
    g := readByte pixels (index + 1)
    b := readByte pixels (index + 2) }

/-! ## `floodFill` -/

/-- The constant `threshold` of `floodFill`. -/
def threshold : Nat := 50

/-- The value `Math.abs(a - b)`; `NaN` (`none`) when an operand is `undefined`. -/
def absDiff (a b : Option Nat) : Option Nat :=
  match a, b with
  | some m, some n => some ((m : Int) - (n : Int)).natAbs
  | _, _ => none

/-- The sum `u + v` of two numbers, `NaN` when one of them is `NaN`. -/
def addNum (u v : Option Nat) : Option Nat :=
  match u, v with
  | some m, some n => some (m + n)
  | _, _ => none

/-- The value `colorDiff` computed for the pixel at `(cx, cy)`. -/
def colorDiff (width : Nat) (baseColor : Color) (pixels : List Nat) (cx cy : Int) : Option Nat :=
  let index := (cy * width + cx) * 4
  let r := readByte pixels index
  let g := readByte pixels (index + 1)
  let b := readByte pixels (index + 2)
  addNum (addNum (absDiff r baseColor.r) (absDiff g baseColor.g)) (absDiff b baseColor.b)

/-- The test `colorDiff < threshold`; false when `colorDiff` is `NaN`. -/
def similar (width : Nat) (baseColor : Color) (pixels : List Nat) (cx cy : Int) : Bool :=
  match colorDiff width baseColor pixels cx cy with
  | some d => decide (d < threshold)
  | none => false

/-- The four conditional `stack.push` statements, in source order. -/
def pushNeighbours (width height : Nat) (cx cy : Int) (stack : List (Int × Int)) :
    List (Int × Int) :=
  let s1 := if cx > 0 then (cx - 1, cy) :: stack else stack
  let s2 := if cy > 0 then (cx, cy - 1) :: s1 else s1
  let s3 := if cx < (width : Int) - 1 then (cx + 1, cy) :: s2 else s2
  if cy < (height : Int) - 1 then (cx, cy + 1) :: s3 else s3

/-- The four `Math.min` / `Math.max` updates of the region. -/
def growRegion (region : Region) (cx cy : Int) : Region :=
  { left := min region.left cx
    top := min region.top cy
    right := max region.right cx
    bottom := max region.bottom cy }

/-- One iteration of the `while (stack.length > 0)` loop body (identity on an empty stack). -/
def floodStep (width height : Nat) (baseColor : Color) (pixels : List Nat)
    (s : FillState) : FillState :=
  match s.stack with
  | [] => s
  | (cx, cy) :: rest =>
    if similar width baseColor pixels cx cy then
      { stack := pushNeighbours width height cx cy rest
        region := growRegion s.region cx cy }
    else
      { stack := rest, region := s.region }

/-- The state of `floodFill` before its loop: `stack = [[x, y]]`, the region the seed point. -/
def initState (x y : Int) : FillState :=
  { stack := [(x, y)], region := { left := x, top := y, right := x, bottom := y } }

/-- The state after `n` iterations of the loop body, from state `s`. -/
def stepsFrom (width height : Nat) (baseColor : Color) (pixels : List Nat) :
    Nat → FillState → FillState
  | 0, s => s
  | n + 1, s => stepsFrom width height baseColor pixels n (floodStep width height baseColor pixels s)

/-- The state of `floodFill(x, y, baseColor, imageData)` after `n` loop iterations. -/
def runSteps (width height : Nat) (x y : Int) (baseColor : Color) (pixels : List Nat)
    (n : Nat) : FillState :=
  stepsFrom width height baseColor pixels n (initState x y)

/-- The `while` loop with at most `fuel` loop tests: the region once the stack is empty,
`none` when the fuel runs out first. -/
def floodLoop (width height : Nat) (baseColor : Color) (pixels : List Nat) :
    Nat → FillState → Option Region
  | 0, _ => none
  | fuel + 1, s =>
    if s.stack.isEmpty then some s.region
    else floodLoop width height baseColor pixels fuel (floodStep width height baseColor pixels s)

/-- The function `floodFill(x, y, baseColor, imageData)` with `canvas.width = width` and
`canvas.height = height`, bounded by `fuel` loop tests. -/
def floodFill (fuel width height : Nat) (x y : Int) (baseColor : Color) (pixels : List Nat) :
    Option Region :=
  floodLoop width height baseColor pixels fuel (initState x y)

/-! ## `applyColorToWall` -/

/-- The three channel writes of the inner loop body for the pixel at `(x, y)`; `color` is
the array `chroma(selectedColor).rgb()`. -/
def paintPixel (width : Nat) (color : Nat × Nat × Nat) (pixels : List Nat) (x y : Int) :
    List Nat :=
  let i := (y * width + x) * 4
  let p1 := writeByte pixels i color.1
  let p2 := writeByte p1 (i + 1) color.2.1
  writeByte p2 (i + 2) color.2.2

/-- The inner loop `for (let x = ...; x < wallRegion.right; x++)`, with `n` iterations left. -/
def paintRow (width : Nat) (color : Nat × Nat × Nat) (y : Int) :
    Nat → Int → List Nat → List Nat
  | 0, _, pixels => pixels
  | n + 1, x, pixels => paintRow width color y n (x + 1) (paintPixel width color pixels x y)

/-- The outer loop `for (let y = ...; y < wallRegion.bottom; y++)`, with `n` iterations left. -/
def paintRows (width : Nat) (color : Nat × Nat × Nat) (region : Region) :
    Nat → Int → List Nat → List Nat
  | 0, _, pixels => pixels
  | n + 1, y, pixels =>
    paintRows width color region n (y + 1)
      (paintRow width color y (region.right - region.left).toNat region.left pixels)

/-- The recolour loop of `applyColorToWall`: `y` runs from `top` while `y < bottom`,
`x` runs from `left` while `x < right`. -/
def recolor (width : Nat) (region : Region) (color : Nat × Nat × Nat) (pixels : List Nat) :
    List Nat :=
  paintRows width color region (region.bottom - region.top).toNat region.top pixels

/-- The function `applyColorToWall`: the pixel data put back on the canvas; unchanged when
`wallRegion` is `null` (the alert branch). -/
def applyColorToWall (width : Nat) (wallRegion : Option Region) (color : Nat × Nat × Nat)
    (pixels : List Nat) : List Nat :=
  match wallRegion with
  | some region => recolor width region color pixels
  | none => pixels

/-! ## Vocabulary of the specification -/

/-- The coordinate `p` satisfies `0 ≤ x < width` and `0 ≤ y < height`. -/
def InBounds (width height : Nat) (p : Int × Int) : Prop :=
  0 ≤ p.1 ∧ p.1 < (width : Int) ∧ 0 ≤ p.2 ∧ p.2 < (height : Int)

instance (width height : Nat) (p : Int × Int) : Decidable (InBounds width height p) := by
  unfold InBounds
  infer_instance

/-- The coordinate `q` is one of the four axis-neighbours (left, right, up, down) of `p`. -/
def Adjacent4 (p q : Int × Int) : Prop :=
  q = (p.1 - 1, p.2) ∨ q = (p.1 + 1, p.2) ∨ q = (p.1, p.2 - 1) ∨ q = (p.1, p.2 + 1)

instance (p q : Int × Int) : Decidable (Adjacent4 p q) := by
  unfold Adjacent4
  infer_instance

/-- The Region invariant of the specification: `left ≤ right`, `top ≤ bottom`, all four
within the buffer. -/
def RegionInBounds (width height : Nat) (r : Region) : Prop :=
  r.left ≤ r.right ∧ r.top ≤ r.bottom ∧ 0 ≤ r.left ∧ 0 ≤ r.top ∧
    r.right ≤ (width : Int) - 1 ∧ r.bottom ≤ (height : Int) - 1

instance (width height : Nat) (r : Region) : Decidable (RegionInBounds width height r) := by
  unfold RegionInBounds
  infer_instance

/-- The region `r'` contains the region `r`. -/
def RegionWithin (r r' : Region) : Prop :=
  r'.left ≤ r.left ∧ r'.top ≤ r.top ∧ r.right ≤ r'.right ∧ r.bottom ≤ r'.bottom

/-- The pixels reachable from the seed through a chain of 4-neighbouring in-bounds pixels
each passing the colour test. -/
inductive Reachable (width height : Nat) (baseColor : Color) (pixels : List Nat)
    (seed : Int × Int) : Int × Int → Prop
  | seed : similar width baseColor pixels seed.1 seed.2 = true →
      Reachable width height baseColor pixels seed seed
  | step (p q : Int × Int) : Reachable width height baseColor pixels seed p →
      Adjacent4 p q → InBounds width height q →
      similar width baseColor pixels q.1 q.2 = true →
      Reachable width height baseColor pixels seed q

/-- The rectangle `r` (bounds inclusive) contains every pixel of `P`. -/
def Covers (r : Region) (P : Int × Int → Prop) : Prop :=
  ∀ p, P p → r.left ≤ p.1 ∧ p.1 ≤ r.right ∧ r.top ≤ p.2 ∧ p.2 ≤ r.bottom

/-- The rectangle `r` is the smallest axis-aligned rectangle containing every pixel of `P`. -/
def IsBoundingBox (r : Region) (P : Int × Int → Prop) : Prop :=
  Covers r P ∧ ∀ r', Covers r' P → RegionWithin r r'

/-! ## The visited-set variant of the specification -/

/-- The loop state of the visited-set variant: stack, region and the coordinates already
tested. -/
structure VisitedState where
  stack : List (Int × Int)
  region : Region
  visited : List (Int × Int)
deriving DecidableEq, Repr

/-- One iteration of the visited-set variant of the traversal described by the
specification: a popped coordinate that was tested before is dropped, any other is marked
and handled as in `floodStep`. -/
def visitedStep (width height : Nat) (baseColor : Color) (pixels : List Nat)
    (s : VisitedState) : VisitedState :=
  match s.stack with
  | [] => s
  | (cx, cy) :: rest =>
    if s.visited.contains (cx, cy) then
      { stack := rest, region := s.region, visited := s.visited }
    else if similar width baseColor pixels cx cy then
      { stack := pushNeighbours width height cx cy rest
        region := growRegion s.region cx cy
        visited := (cx, cy) :: s.visited }
    else
      { stack := rest, region := s.region, visited := (cx, cy) :: s.visited }

/-- The loop of the visited-set variant with at most `fuel` loop tests. -/
def visitedLoop (width height : Nat) (baseColor : Color) (pixels : List Nat) :
    Nat → VisitedState → Option Region
  | 0, _ => none
  | fuel + 1, s =>
    if s.stack.isEmpty then some s.region
    else visitedLoop width height baseColor pixels fuel
      (visitedStep width height baseColor pixels s)

/-- The visited-set variant of `floodFill`, bounded by `fuel` loop tests. -/
def floodFillVisited (fuel width height : Nat) (x y : Int) (baseColor : Color)
    (pixels : List Nat) : Option Region :=
  visitedLoop width height baseColor pixels fuel
    { stack := [(x, y)], region := { left := x, top := y, right := x, bottom := y },
      visited := [] }

/-! ## The same functions on unrounded click coordinates

The click handler passes `event.clientX - rect.left` and `event.clientY - rect.top` to
`getColorAtPixel` and `floodFill` without rounding, so the coordinates can be fractional.
The definitions below are the functions above with coordinates in `ℚ`: the index
`(y * width + x) * 4` is a rational number and a typed-array read at an index that is not an
integer gives `undefined`.  On integer coordinates they agree with the integer definitions
(`unrounded_runSteps_intCast`). -/

/-- The object `{ left, top, right, bottom }` with unrounded coordinates. -/
structure Unrounded.Region where
  left : ℚ
  top : ℚ
  right : ℚ
  bottom : ℚ
deriving DecidableEq

/-- The loop state of `floodFill` with unrounded coordinates. -/
structure Unrounded.FillState where
  stack : List (ℚ × ℚ)
  region : Unrounded.Region
deriving DecidableEq

/-- Typed-array read `pixels[i]` at a number `i`: `undefined` unless `i` is an integer that
is a valid index. -/
def Unrounded.readByte (pixels : List Nat) (i : ℚ) : Option Nat :=
  if i.den = 1 then ColorVizulizer.readByte pixels i.num else none

/-- The function `getColorAtPixel(x, y, imageData)` on unrounded coordinates. -/
def Unrounded.getColorAtPixel (width : Nat) (x y : ℚ) (pixels : List Nat) : Color :=
  let index := (y * width + x) * 4
  { r := Unrounded.readByte pixels index
    g := Unrounded.readByte pixels (index + 1)
    b := Unrounded.readByte pixels (index + 2) }

/-- The value `colorDiff` computed for the coordinate `(cx, cy)`. -/
def Unrounded.colorDiff (width : Nat) (baseColor : Color) (pixels : List Nat) (cx cy : ℚ) :
    Option Nat :=
  let index := (cy * width + cx) * 4
  let r := Unrounded.readByte pixels index
  let g := Unrounded.readByte pixels (index + 1)
  let b := Unrounded.readByte pixels (index + 2)
  addNum (addNum (absDiff r baseColor.r) (absDiff g baseColor.g)) (absDiff b baseColor.b)

/-- The test `colorDiff < threshold` at the coordinate `(cx, cy)`. -/
def Unrounded.similar (width : Nat) (baseColor : Color) (pixels : List Nat) (cx cy : ℚ) : Bool :=
  match Unrounded.colorDiff width baseColor pixels cx cy with
  | some d => decide (d < threshold)
  | none => false

/-- The four conditional `stack.push` statements, in source order. -/
def Unrounded.pushNeighbours (width height : Nat) (cx cy : ℚ) (stack : List (ℚ × ℚ)) :
    List (ℚ × ℚ) :=
  let s1 := if cx > 0 then (cx - 1, cy) :: stack else stack
  let s2 := if cy > 0 then (cx, cy - 1) :: s1 else s1
  let s3 := if cx < (width : ℚ) - 1 then (cx + 1, cy) :: s2 else s2
  if cy < (height : ℚ) - 1 then (cx, cy + 1) :: s3 else s3

/-- The four `Math.min` / `Math.max` updates of the region. -/
def Unrounded.growRegion (region : Unrounded.Region) (cx cy : ℚ) : Unrounded.Region :=
  { left := min region.left cx
    top := min region.top cy
    right := max region.right cx
    bottom := max region.bottom cy }

/-- One iteration of the `while (stack.length > 0)` loop body (identity on an empty stack). -/
def Unrounded.floodStep (width height : Nat) (baseColor : Color) (pixels : List Nat)
    (s : Unrounded.FillState) : Unrounded.FillState :=
  match s.stack with
  | [] => s
  | (cx, cy) :: rest =>
    if Unrounded.similar width baseColor pixels cx cy then
      { stack := Unrounded.pushNeighbours width height cx cy rest
        region := Unrounded.growRegion s.region cx cy }
    else
      { stack := rest, region := s.region }

/-- The state of `floodFill` before its loop. -/
def Unrounded.initState (x y : ℚ) : Unrounded.FillState :=
  { stack := [(x, y)], region := { left := x, top := y, right := x, bottom := y } }

/-- The state after `n` iterations of the loop body, from state `s`. -/
def Unrounded.stepsFrom (width height : Nat) (baseColor : Color) (pixels : List Nat) :
    Nat → Unrounded.FillState → Unrounded.FillState
  | 0, s => s
  | n + 1, s =>
    Unrounded.stepsFrom width height baseColor pixels n
      (Unrounded.floodStep width height baseColor pixels s)

/-- The state of `floodFill(x, y, baseColor, imageData)` after `n` loop iterations. -/
def Unrounded.runSteps (width height : Nat) (x y : ℚ) (baseColor : Color) (pixels : List Nat)
    (n : Nat) : Unrounded.FillState :=
  Unrounded.stepsFrom width height baseColor pixels n (Unrounded.initState x y)

/-- The `while` loop with at most `fuel` loop tests. -/
def Unrounded.floodLoop (width height : Nat) (baseColor : Color) (pixels : List Nat) :
    Nat → Unrounded.FillState → Option Unrounded.Region
  | 0, _ => none
  | fuel + 1, s =>
    if s.stack.isEmpty then some s.region
    else Unrounded.floodLoop width height baseColor pixels fuel
      (Unrounded.floodStep width height baseColor pixels s)

/-- The function `floodFill(x, y, baseColor, imageData)` on unrounded coordinates, bounded by
`fuel` loop tests. -/
def Unrounded.floodFill (fuel width height : Nat) (x y : ℚ) (baseColor : Color)
    (pixels : List Nat) : Option Unrounded.Region :=
  Unrounded.floodLoop width height baseColor pixels fuel (Unrounded.initState x y)

/-- The body of the canvas click handler: `getColorAtPixel(mouseX, mouseY, imageData)`
followed by `floodFill(mouseX, mouseY, clickedColor, imageData)`. -/
def Unrounded.detect (fuel width height : Nat) (x y : ℚ) (pixels : List Nat) :
    Option Unrounded.Region :=
  Unrounded.floodFill fuel width height x y (Unrounded.getColorAtPixel width x y pixels) pixels

/-- The coordinate `p` satisfies `0 ≤ x < width` and `0 ≤ y < height`. -/
def Unrounded.InBounds (width height : Nat) (p : ℚ × ℚ) : Prop :=
  0 ≤ p.1 ∧ p.1 < (width : ℚ) ∧ 0 ≤ p.2 ∧ p.2 < (height : ℚ)

instance (width height : Nat) (p : ℚ × ℚ) : Decidable (Unrounded.InBounds width height p) := by
  unfold Unrounded.InBounds
  infer_instance

/-- The coordinate `q` is one of the four axis-neighbours (left, right, up, down) of `p`. -/
def Unrounded.Adjacent4 (p q : ℚ × ℚ) : Prop :=
  q = (p.1 - 1, p.2) ∨ q = (p.1 + 1, p.2) ∨ q = (p.1, p.2 - 1) ∨ q = (p.1, p.2 + 1)

/-- The Region invariant of the specification on unrounded coordinates. -/
def Unrounded.RegionInBounds (width height : Nat) (r : Unrounded.Region) : Prop :=
  r.left ≤ r.right ∧ r.top ≤ r.bottom ∧ 0 ≤ r.left ∧ 0 ≤ r.top ∧
    r.right ≤ (width : ℚ) - 1 ∧ r.bottom ≤ (height : ℚ) - 1

instance (width height : Nat) (r : Unrounded.Region) :
    Decidable (Unrounded.RegionInBounds width height r) := by
  unfold Unrounded.RegionInBounds
  infer_instance

/-- The region `r'` contains the region `r`. -/
def Unrounded.RegionWithin (r r' : Unrounded.Region) : Prop :=
  r'.left ≤ r.left ∧ r'.top ≤ r.top ∧ r.right ≤ r'.right ∧ r.bottom ≤ r'.bottom

/-- The rectangle `r` (bounds inclusive) contains the point `(x, y)`. -/
def Unrounded.Contains (r : Unrounded.Region) (x y : ℚ) : Prop :=
  r.left ≤ x ∧ x ≤ r.right ∧ r.top ≤ y ∧ y ≤ r.bottom

/-- A coordinate that passes the colour test and has a pushed neighbour that passes it too
and pushes the coordinate back. -/
def Unrounded.Rebounding (W H : Nat) (base : Color) (px : List Nat) (p : ℚ × ℚ) : Prop :=
  Unrounded.similar W base px p.1 p.2 = true ∧
    ∃ q : ℚ × ℚ, q ∈ Unrounded.pushNeighbours W H p.1 p.2 [] ∧
      Unrounded.similar W base px q.1 q.2 = true ∧ p ∈ Unrounded.pushNeighbours W H q.1 q.2 []

/-- The stack holds a rebounding coordinate. -/
def Unrounded.HoldsRebounding (W H : Nat) (base : Color) (px : List Nat)
    (s : Unrounded.FillState) : Prop :=
  ∃ p ∈ s.stack, Unrounded.Rebounding W H base px p

/-- An integer coordinate pair as a pair of numbers. -/
def castPoint (p : Int × Int) : ℚ × ℚ := ((p.1 : ℚ), (p.2 : ℚ))

/-- An integer region as a region of numbers. -/
def castRegion (r : Region) : Unrounded.Region :=
  { left := (r.left : ℚ), top := (r.top : ℚ), right := (r.right : ℚ), bottom := (r.bottom : ℚ) }

/-- An integer loop state as a loop state of numbers. -/
def castState (s : FillState) : Unrounded.FillState :=
  { stack := s.stack.map castPoint, region := castRegion s.region }

/-! ## Predicates used in the proofs -/

/-- A pixel that passes the colour test and has a pushed neighbour that passes it too and
pushes the pixel back. -/
def Rebounding (W H : Nat) (base : Color) (px : List Nat) (p : Int × Int) : Prop :=
  similar W base px p.1 p.2 = true ∧
    ∃ q : Int × Int, q ∈ pushNeighbours W H p.1 p.2 [] ∧ similar W base px q.1 q.2 = true ∧
      p ∈ pushNeighbours W H q.1 q.2 []

/-- The stack holds a rebounding pixel. -/
def HoldsRebounding (W H : Nat) (base : Color) (px : List Nat) (s : FillState) : Prop :=
  ∃ p ∈ s.stack, Rebounding W H base px p

/-- The loop invariant: every stack entry is inside the buffer and the region satisfies
the Region invariant. -/
def FillInv (W H : Nat) (s : FillState) : Prop :=
  (∀ p ∈ s.stack, InBounds W H p) ∧ RegionInBounds W H s.region

/-- The byte index `j` is a red, green or blue byte of a pixel visited by the recolour loop. -/
def Painted (W : Nat) (region : Region) (j : Int) : Prop :=
  ∃ x y c : Int, region.left ≤ x ∧ x < region.right ∧ region.top ≤ y ∧ y < region.bottom ∧
    0 ≤ c ∧ c < 3 ∧ j = (y * W + x) * 4 + c

/-! ## Concrete buffers -/

/-- A buffer of `n` pixels, all with channels `(r, g, b, a)`. -/
def uniformBuffer (n r g b a : Nat) : List Nat :=
  (List.replicate n [r, g, b, a]).flatten

/-- The 4×4 buffer of the scenarios: every pixel `(200, 200, 200, 255)`. -/
def grey4x4 : List Nat := uniformBuffer 16 200 200 200 255

/-- The 4×4 buffer whose pixels are `(200, 200, 200, 255)` except pixel `(3, 3)`, which is
`(0, 0, 0, 255)`. -/
def greyCorner4x4 : List Nat := uniformBuffer 15 200 200 200 255 ++ [0, 0, 0, 255]

/-- The colour `(200, 200, 200)`. -/
def grey : Color := { r := some 200, g := some 200, b := some 200 }

/-- The 2×2 buffer with pixels `(7, 7, 0)`, `(0, 7, 100)`, `(100, 7, 100)`, `(100, 7, 7)`,
all of alpha 255. -/
def mixed2x2 : List Nat := [7, 7, 0, 255, 0, 7, 100, 255, 100, 7, 100, 255, 100, 7, 7, 255]

/-- The 2×2 buffer with pixels `(10, 10, 10)`, `(90, 90, 90)`, `(170, 170, 170)`,
`(250, 250, 250)`, all of alpha 255. -/
def steps2x2 : List Nat :=
  [10, 10, 10, 255, 90, 90, 90, 255, 170, 170, 170, 255, 250, 250, 250, 255]

/-- The 2×2 buffer with pixels `(10, 10, 10)`, `(90, 90, 90)`, `(90, 90, 90)`,
`(250, 250, 250)`, all of alpha 255. -/
def pair2x2 : List Nat :=
  [10, 10, 10, 255, 90, 90, 90, 255, 90, 90, 90, 255, 250, 250, 250, 255]

/-! ## The loop body -/

theorem floodStep_similar (W H : Nat) (base : Color) (px : List Nat) (cx cy : Int)
    (rest : List (Int × Int)) (reg : Region) (h : similar W base px cx cy = true) :
    floodStep W H base px ⟨(cx, cy) :: rest, reg⟩
      = ⟨pushNeighbours W H cx cy rest, growRegion reg cx cy⟩ := by
  simp [floodStep, h]

theorem floodStep_dissimilar (W H : Nat) (base : Color) (px : List Nat) (cx cy : Int)
    (rest : List (Int × Int)) (reg : Region) (h : similar W base px cx cy = false) :
    floodStep W H base px ⟨(cx, cy) :: rest, reg⟩ = ⟨rest, reg⟩ := by
  simp [floodStep, h]

theorem mem_pushNeighbours (W H : Nat) (cx cy : Int) (st : List (Int × Int)) (q : Int × Int) :
    q ∈ pushNeighbours W H cx cy st ↔
      q ∈ st ∨ (0 < cx ∧ q = (cx - 1, cy)) ∨ (0 < cy ∧ q = (cx, cy - 1)) ∨
        (cx < (W : Int) - 1 ∧ q = (cx + 1, cy)) ∨ (cy < (H : Int) - 1 ∧ q = (cx, cy + 1)) := by
  unfold pushNeighbours
  by_cases h1 : cx > 0 <;> by_cases h2 : cy > 0 <;> by_cases h3 : cx < (W : Int) - 1 <;>
    by_cases h4 : cy < (H : Int) - 1 <;>
    simp only [h1, h2, h3, h4, if_true, if_false, List.mem_cons, gt_iff_lt, true_and,
      false_and, or_false, false_or] <;> tauto

theorem length_pushNeighbours_le (W H : Nat) (cx cy : Int) (st : List (Int × Int)) :
    (pushNeighbours W H cx cy st).length ≤ st.length + 4 := by
  unfold pushNeighbours
  split_ifs <;> simp

/-! ## Divergence: two adjacent similar pixels keep pushing each other -/

theorem mem_pushNeighbours_of_nil (W H : Nat) (cx cy : Int) (st : List (Int × Int))
    (q : Int × Int) (h : q ∈ pushNeighbours W H cx cy []) : q ∈ pushNeighbours W H cx cy st := by
  rw [mem_pushNeighbours] at h ⊢
  rcases h with h | h
  · simp at h
  · exact Or.inr h

theorem mem_pushNeighbours_of_mem (W H : Nat) (cx cy : Int) (st : List (Int × Int))
    (q : Int × Int) (h : q ∈ st) : q ∈ pushNeighbours W H cx cy st := by
  rw [mem_pushNeighbours]
  exact Or.inl h

theorem holdsRebounding_floodStep (W H : Nat) (base : Color) (px : List Nat) (s : FillState)
    (h : HoldsRebounding W H base px s) :
    HoldsRebounding W H base px (floodStep W H base px s) := by
  obtain ⟨stack, reg⟩ := s
  obtain ⟨p, hp, hgood⟩ := h
  cases stack with
  | nil => simp at hp
  | cons top rest =>
    obtain ⟨cx, cy⟩ := top
    rcases List.mem_cons.1 hp with rfl | hrest
    · obtain ⟨hsim, q, hq, hqsim, hback⟩ := hgood
      rw [floodStep_similar W H base px cx cy rest reg hsim]
      exact ⟨q, mem_pushNeighbours_of_nil W H cx cy rest q hq, hqsim, (cx, cy), hback, hsim, hq⟩
    · by_cases hsim : similar W base px cx cy = true
      · rw [floodStep_similar W H base px cx cy rest reg hsim]
        exact ⟨p, mem_pushNeighbours_of_mem W H cx cy rest p hrest, hgood⟩
      · rw [floodStep_dissimilar W H base px cx cy rest reg (by simpa using hsim)]
        exact ⟨p, hrest, hgood⟩

theorem holdsRebounding_stepsFrom (W H : Nat) (base : Color) (px : List Nat) (n : Nat) :
    ∀ s : FillState, HoldsRebounding W H base px s →
      HoldsRebounding W H base px (stepsFrom W H base px n s) := by
  induction n with
  | zero => intro s h; exact h
  | succ n ih =>
    intro s h
    exact ih _ (holdsRebounding_floodStep W H base px s h)

theorem stack_ne_nil_of_holdsRebounding (W H : Nat) (base : Color) (px : List Nat)
    (s : FillState) (h : HoldsRebounding W H base px s) : s.stack ≠ [] := by
  obtain ⟨p, hp, _⟩ := h
  exact List.ne_nil_of_mem hp

theorem floodLoop_none_of_holdsRebounding (W H : Nat) (base : Color) (px : List Nat)
    (fuel : Nat) : ∀ s : FillState, HoldsRebounding W H base px s →
      floodLoop W H base px fuel s = none := by
  induction fuel with
  | zero => intro s _; rfl
  | succ fuel ih =>
    intro s h
    have hne := stack_ne_nil_of_holdsRebounding W H base px s h
    have : s.stack.isEmpty = false := by
      cases hs : s.stack with
      | nil => exact absurd hs hne
      | cons a l => rfl
    simp only [floodLoop, this]
    exact ih _ (holdsRebounding_floodStep W H base px s h)

/-- The loop of `floodFill` never ends when the seed passes the colour test and one of its
pushed neighbours passes it and pushes the seed back. -/
theorem floodFill_diverges (W H : Nat) (x y : Int) (base : Color) (px : List Nat)
    (h : Rebounding W H base px (x, y)) :
    (∀ n, (runSteps W H x y base px n).stack ≠ []) ∧
      ∀ fuel, floodFill fuel W H x y base px = none := by
  have h0 : HoldsRebounding W H base px (initState x y) := ⟨(x, y), by simp [initState], h⟩
  exact ⟨fun n => stack_ne_nil_of_holdsRebounding W H base px _
      (holdsRebounding_stepsFrom W H base px n _ h0),
    fun fuel => floodLoop_none_of_holdsRebounding W H base px fuel _ h0⟩

/-! ## Termination when nothing on the stack passes the colour test -/

theorem floodStep_nil (W H : Nat) (base : Color) (px : List Nat) (reg : Region) :
    floodStep W H base px ⟨[], reg⟩ = ⟨[], reg⟩ := rfl

theorem stepsFrom_dissimilar (W H : Nat) (base : Color) (px : List Nat) (reg : Region)
    (n : Nat) : ∀ st : List (Int × Int),
      (∀ p ∈ st, similar W base px p.1 p.2 = false) → st.length ≤ n →
        stepsFrom W H base px n ⟨st, reg⟩ = ⟨[], reg⟩ := by
  induction n with
  | zero =>
    intro st _ hlen
    have : st = [] := List.length_eq_zero.1 (Nat.le_zero.1 hlen)
    subst this
    rfl
  | succ n ih =>
    intro st hdis hlen
    cases st with
    | nil =>
      simp only [stepsFrom, floodStep_nil]
      exact ih [] (by simp) (by simp)
    | cons top rest =>
      obtain ⟨cx, cy⟩ := top
      have htop : similar W base px cx cy = false := hdis (cx, cy) (by simp)
      simp only [stepsFrom, floodStep_dissimilar W H base px cx cy rest reg htop]
      exact ih rest (fun p hp => hdis p (List.mem_cons_of_mem _ hp))
        (by simpa using hlen)

theorem floodLoop_dissimilar (W H : Nat) (base : Color) (px : List Nat) (reg : Region)
    (fuel : Nat) : ∀ st : List (Int × Int),
      (∀ p ∈ st, similar W base px p.1 p.2 = false) → st.length < fuel →
        floodLoop W H base px fuel ⟨st, reg⟩ = some reg := by
  induction fuel with
  | zero => intro st _ hlen; omega
  | succ fuel ih =>
    intro st hdis hlen
    cases st with
    | nil => simp [floodLoop]
    | cons top rest =>
      obtain ⟨cx, cy⟩ := top
      have htop : similar W base px cx cy = false := hdis (cx, cy) (by simp)
      simp only [floodLoop, List.isEmpty_cons, Bool.false_eq_true, if_false,
        floodStep_dissimilar W H base px cx cy rest reg htop]
      exact ih rest (fun p hp => hdis p (List.mem_cons_of_mem _ hp))
        (by simpa using hlen)

/-! ## The seed and its neighbours -/

theorem mem_pushNeighbours_seed (W H : Nat) (x y : Int) (q : Int × Int)
    (hseed : InBounds W H (x, y)) :
    q ∈ pushNeighbours W H x y [] ↔ Adjacent4 (x, y) q ∧ InBounds W H q := by
  obtain ⟨q1, q2⟩ := q
  unfold InBounds at hseed
  simp only [mem_pushNeighbours, Adjacent4, InBounds, List.not_mem_nil, false_or,
    Prod.mk.injEq] at *
  constructor
  · rintro (⟨h, rfl, rfl⟩ | ⟨h, rfl, rfl⟩ | ⟨h, rfl, rfl⟩ | ⟨h, rfl, rfl⟩) <;>
      refine ⟨by simp, ?_⟩ <;> omega
  · rintro ⟨(⟨rfl, rfl⟩ | ⟨rfl, rfl⟩ | ⟨rfl, rfl⟩ | ⟨rfl, rfl⟩), hb⟩
    · exact Or.inl ⟨by omega, rfl, rfl⟩
    · exact Or.inr (Or.inr (Or.inl ⟨by omega, rfl, rfl⟩))
    · exact Or.inr (Or.inl ⟨by omega, rfl, rfl⟩)
    · exact Or.inr (Or.inr (Or.inr ⟨by omega, rfl, rfl⟩))

theorem mem_pushNeighbours_back (W H : Nat) (x y : Int) (q : Int × Int)
    (hseed : InBounds W H (x, y)) (hadj : Adjacent4 (x, y) q) :
    (x, y) ∈ pushNeighbours W H q.1 q.2 [] := by
  obtain ⟨q1, q2⟩ := q
  unfold InBounds at hseed
  simp only [mem_pushNeighbours, Adjacent4, List.not_mem_nil, false_or,
    Prod.mk.injEq] at *
  rcases hadj with ⟨rfl, rfl⟩ | ⟨rfl, rfl⟩ | ⟨rfl, rfl⟩ | ⟨rfl, rfl⟩
  · exact Or.inr (Or.inr (Or.inl ⟨by omega, by omega, rfl⟩))
  · exact Or.inl ⟨by omega, by omega, rfl⟩
  · exact Or.inr (Or.inr (Or.inr ⟨by omega, rfl, by omega⟩))
  · exact Or.inr (Or.inl ⟨by omega, rfl, by omega⟩)

/-- When any pixel passes the colour test against the seed's colour, the seed does. -/
theorem similar_seed_of_similar (W : Nat) (x y : Int) (px : List Nat) (cx cy : Int)
    (h : similar W (getColorAtPixel W x y px) px cx cy = true) :
    similar W (getColorAtPixel W x y px) px x y = true := by
  unfold similar colorDiff getColorAtPixel at *
  simp only at *
  rcases hr : readByte px ((y * W + x) * 4) with _ | r <;>
    rcases hg : readByte px ((y * W + x) * 4 + 1) with _ | g <;>
    rcases hb : readByte px ((y * W + x) * 4 + 2) with _ | b <;>
    rcases hr2 : readByte px ((cy * W + cx) * 4) with _ | r2 <;>
    rcases hg2 : readByte px ((cy * W + cx) * 4 + 1) with _ | g2 <;>
    rcases hb2 : readByte px ((cy * W + cx) * 4 + 2) with _ | b2 <;>
    simp [hr, hg, hb, hr2, hg2, hb2, absDiff, addNum, threshold] at h ⊢

theorem rebounding_seed (W H : Nat) (x y : Int) (px : List Nat) (q : Int × Int)
    (hseed : InBounds W H (x, y)) (hadj : Adjacent4 (x, y) q) (hq : InBounds W H q)
    (hsim : similar W (getColorAtPixel W x y px) px q.1 q.2 = true) :
    Rebounding W H (getColorAtPixel W x y px) px (x, y) :=
  ⟨similar_seed_of_similar W x y px q.1 q.2 hsim, q,
    (mem_pushNeighbours_seed W H x y q hseed).2 ⟨hadj, hq⟩, hsim,
    mem_pushNeighbours_back W H x y q hseed hadj⟩

theorem growRegion_seed (x y : Int) :
    growRegion { left := x, top := y, right := x, bottom := y } x y
      = { left := x, top := y, right := x, bottom := y } := by
  simp [growRegion]

/-- With no in-bounds neighbour of the seed passing the colour test, five iterations empty
the stack and leave the region at the seed point. -/
theorem runSteps_no_similar_neighbour (W H : Nat) (x y : Int) (base : Color) (px : List Nat)
    (hseed : InBounds W H (x, y))
    (hno : ∀ q, Adjacent4 (x, y) q → InBounds W H q → similar W base px q.1 q.2 = false) :
    runSteps W H x y base px 5 = ⟨[], ⟨x, y, x, y⟩⟩ ∧
      floodFill 6 W H x y base px = some ⟨x, y, x, y⟩ := by
  have hdis : ∀ p ∈ pushNeighbours W H x y [], similar W base px p.1 p.2 = false := by
    intro p hp
    obtain ⟨hadj, hb⟩ := (mem_pushNeighbours_seed W H x y p hseed).1 hp
    exact hno p hadj hb
  have hlen : (pushNeighbours W H x y []).length ≤ 4 := by
    simpa using length_pushNeighbours_le W H x y []
  by_cases hsim : similar W base px x y = true
  · constructor
    · simp only [runSteps, initState, stepsFrom,
        floodStep_similar W H base px x y [] _ hsim, growRegion_seed]
      exact stepsFrom_dissimilar W H base px _ 4 _ hdis hlen
    · simp only [floodFill, initState, floodLoop, List.isEmpty_cons, Bool.false_eq_true,
        if_false, floodStep_similar W H base px x y [] _ hsim, growRegion_seed]
      exact floodLoop_dissimilar W H base px _ 5 _ hdis (Nat.lt_succ_of_le hlen)
  · have hsim2 : similar W base px x y = false := by simpa using hsim
    constructor
    · simp only [runSteps, initState, stepsFrom,
        floodStep_dissimilar W H base px x y [] _ hsim2]
      exact stepsFrom_dissimilar W H base px _ 4 [] (by simp) (by simp)
    · simp only [floodFill, initState, floodLoop, List.isEmpty_cons, Bool.false_eq_true,
        if_false, floodStep_dissimilar W H base px x y [] _ hsim2]
      exact floodLoop_dissimilar W H base px _ 5 [] (by simp) (by simp)

/-! ## The region invariant -/

theorem fillInv_initState (W H : Nat) (x y : Int) (hseed : InBounds W H (x, y)) :
    FillInv W H (initState x y) := by
  unfold InBounds at hseed
  refine ⟨?_, ?_⟩
  · intro p hp
    simp only [initState, List.mem_singleton] at hp
    subst hp
    exact hseed
  · simp only [RegionInBounds, initState]
    omega

theorem fillInv_floodStep (W H : Nat) (base : Color) (px : List Nat) (s : FillState)
    (h : FillInv W H s) : FillInv W H (floodStep W H base px s) := by
  obtain ⟨stack, reg⟩ := s
  obtain ⟨hst, hreg⟩ := h
  cases stack with
  | nil => exact ⟨hst, hreg⟩
  | cons top rest =>
    obtain ⟨cx, cy⟩ := top
    have htop : InBounds W H (cx, cy) := hst (cx, cy) (by simp)
    have hrest : ∀ p ∈ rest, InBounds W H p := fun p hp => hst p (List.mem_cons_of_mem _ hp)
    by_cases hsim : similar W base px cx cy = true
    · rw [floodStep_similar W H base px cx cy rest reg hsim]
      unfold InBounds at htop
      simp only at htop
      refine ⟨?_, ?_⟩
      · intro p hp
        rcases (mem_pushNeighbours W H cx cy rest p).1 hp with
          h | ⟨h, rfl⟩ | ⟨h, rfl⟩ | ⟨h, rfl⟩ | ⟨h, rfl⟩
        · exact hrest p h
        all_goals (unfold InBounds; simp only; omega)
      · unfold RegionInBounds at hreg ⊢
        simp only [growRegion] at hreg ⊢
        omega
    · rw [floodStep_dissimilar W H base px cx cy rest reg (by simpa using hsim)]
      exact ⟨hrest, hreg⟩

theorem fillInv_stepsFrom (W H : Nat) (base : Color) (px : List Nat) (n : Nat) :
    ∀ s : FillState, FillInv W H s → FillInv W H (stepsFrom W H base px n s) := by
  induction n with
  | zero => intro s h; exact h
  | succ n ih => intro s h; exact ih _ (fillInv_floodStep W H base px s h)

/-- A region returned by the loop is the region of the state after some number of
iterations, and that state has an empty stack. -/
theorem floodLoop_eq_some (W H : Nat) (base : Color) (px : List Nat) (fuel : Nat) :
    ∀ (s : FillState) (r : Region), floodLoop W H base px fuel s = some r →
      ∃ n, (stepsFrom W H base px n s).stack = [] ∧ (stepsFrom W H base px n s).region = r := by
  induction fuel with
  | zero => intro s r h; simp [floodLoop] at h
  | succ fuel ih =>
    intro s r h
    cases hs : s.stack with
    | nil =>
      simp only [floodLoop, hs, List.isEmpty_nil, if_true, Option.some.injEq] at h
      exact ⟨0, hs, h⟩
    | cons top rest =>
      simp only [floodLoop, hs, List.isEmpty_cons, Bool.false_eq_true, if_false] at h
      obtain ⟨n, hn1, hn2⟩ := ih _ r h
      exact ⟨n + 1, hn1, hn2⟩

/-! ## The region only grows -/

theorem regionWithin_refl (r : Region) : RegionWithin r r := by
  simp [RegionWithin]

theorem regionWithin_trans (a b c : Region) (h1 : RegionWithin a b) (h2 : RegionWithin b c) :
    RegionWithin a c := by
  unfold RegionWithin at *
  omega

theorem regionWithin_floodStep (W H : Nat) (base : Color) (px : List Nat) (s : FillState) :
    RegionWithin s.region (floodStep W H base px s).region := by
  obtain ⟨stack, reg⟩ := s
  cases stack with
  | nil => exact regionWithin_refl _
  | cons top rest =>
    obtain ⟨cx, cy⟩ := top
    by_cases hsim : similar W base px cx cy = true
    · rw [floodStep_similar W H base px cx cy rest reg hsim]
      simp only [RegionWithin, growRegion]
      omega
    · rw [floodStep_dissimilar W H base px cx cy rest reg (by simpa using hsim)]
      exact regionWithin_refl _

theorem regionWithin_stepsFrom (W H : Nat) (base : Color) (px : List Nat) (n : Nat) :
    ∀ s : FillState, RegionWithin s.region (stepsFrom W H base px n s).region := by
  induction n with
  | zero => intro s; exact regionWithin_refl _
  | succ n ih =>
    intro s
    exact regionWithin_trans _ _ _ (regionWithin_floodStep W H base px s) (ih _)

theorem stepsFrom_add (W H : Nat) (base : Color) (px : List Nat) (m n : Nat) :
    ∀ s : FillState, stepsFrom W H base px (n + m) s
      = stepsFrom W H base px n (stepsFrom W H base px m s) := by
  induction m with
  | zero => intro s; rfl
  | succ m ih =>
    intro s
    rw [← Nat.add_assoc]
    simp only [stepsFrom]
    exact ih _

theorem reachable_inBounds (W H : Nat) (base : Color) (px : List Nat) (seed p : Int × Int)
    (hseed : InBounds W H seed) (h : Reachable W H base px seed p) : InBounds W H p := by
  induction h with
  | seed _ => exact hseed
  | step p q _ _ hq _ _ => exact hq

/-! ## The claims -/

/-- C10 (amended): for an integer seed inside the buffer, with `baseColor` the seed pixel's
colour, the loop of `floodFill` terminates if and only if no in-bounds 4-neighbour of the
seed passes the colour test. When such a neighbour exists the stack is never empty and `floodFill` returns for no
amount of fuel; when none exists the stack is empty after five iterations (the seed and at
most four neighbours) and `floodFill` returns the seed point as region. -/
theorem floodFill_terminates_iff_no_similar_neighbour (W H : Nat) (x y : Int) (px : List Nat)
    (hseed : InBounds W H (x, y)) :
    ((∃ n, (runSteps W H x y (getColorAtPixel W x y px) px n).stack = []) ↔
      ¬ ∃ q, Adjacent4 (x, y) q ∧ InBounds W H q ∧
          similar W (getColorAtPixel W x y px) px q.1 q.2 = true) ∧
    ((∃ q, Adjacent4 (x, y) q ∧ InBounds W H q ∧
          similar W (getColorAtPixel W x y px) px q.1 q.2 = true) →
      (∀ n, (runSteps W H x y (getColorAtPixel W x y px) px n).stack ≠ []) ∧
        ∀ fuel, floodFill fuel W H x y (getColorAtPixel W x y px) px = none) ∧
    ((¬ ∃ q, Adjacent4 (x, y) q ∧ InBounds W H q ∧
          similar W (getColorAtPixel W x y px) px q.1 q.2 = true) →
      (runSteps W H x y (getColorAtPixel W x y px) px 5).stack = [] ∧
        floodFill 6 W H x y (getColorAtPixel W x y px) px = some ⟨x, y, x, y⟩) := by
  have hdiv : (∃ q, Adjacent4 (x, y) q ∧ InBounds W H q ∧
          similar W (getColorAtPixel W x y px) px q.1 q.2 = true) →
      (∀ n, (runSteps W H x y (getColorAtPixel W x y px) px n).stack ≠ []) ∧
        ∀ fuel, floodFill fuel W H x y (getColorAtPixel W x y px) px = none := by
    rintro ⟨q, hadj, hq, hsim⟩
    exact floodFill_diverges W H x y _ px (rebounding_seed W H x y px q hseed hadj hq hsim)
  have hterm : (¬ ∃ q, Adjacent4 (x, y) q ∧ InBounds W H q ∧
          similar W (getColorAtPixel W x y px) px q.1 q.2 = true) →
      (runSteps W H x y (getColorAtPixel W x y px) px 5).stack = [] ∧
        floodFill 6 W H x y (getColorAtPixel W x y px) px = some ⟨x, y, x, y⟩ := by
    intro hno
    have hno2 : ∀ q, Adjacent4 (x, y) q → InBounds W H q →
        similar W (getColorAtPixel W x y px) px q.1 q.2 = false := by
      intro q hadj hq
      by_contra hc
      exact hno ⟨q, hadj, hq, by simpa using hc⟩
    obtain ⟨h5, h6⟩ := runSteps_no_similar_neighbour W H x y _ px hseed hno2
    exact ⟨by rw [h5], h6⟩
  refine ⟨⟨?_, fun hno => ⟨5, (hterm hno).1⟩⟩, hdiv, hterm⟩
  rintro ⟨n, hn⟩ hex
  exact (hdiv hex).1 n hn

/-- Witness of C10 (amended) on the 2×1 buffer of two equal pixels, seed `(0, 0)`: the neighbour
`(1, 0)` passes the colour test, and the stack is empty after no number of iterations. -/
theorem floodFill_terminates_iff_no_similar_neighbour_witness :
    InBounds 2 1 (0, 0) ∧
    (∃ q, Adjacent4 (0, 0) q ∧ InBounds 2 1 q ∧
      similar 2 (getColorAtPixel 2 0 0 (uniformBuffer 2 200 200 200 255))
        (uniformBuffer 2 200 200 200 255) q.1 q.2 = true) ∧
    ¬ ∃ n, (runSteps 2 1 0 0 (getColorAtPixel 2 0 0 (uniformBuffer 2 200 200 200 255))
        (uniformBuffer 2 200 200 200 255) n).stack = [] :=
  ⟨by decide, ⟨(1, 0), by decide, by decide, by decide⟩,
    fun h => (floodFill_terminates_iff_no_similar_neighbour 2 1 0 0
      (uniformBuffer 2 200 200 200 255) (by decide)).1.1 h
        ⟨(1, 0), by decide, by decide, by decide⟩⟩

/-- Integer seeds: from a seed inside the buffer, after every number of loop iterations the region of
`floodFill` satisfies `left ≤ right`, `top ≤ bottom`, `0 ≤ left`, `0 ≤ top`,
`right ≤ W - 1` and `bottom ≤ H - 1`, and every coordinate on the stack is inside the
buffer; hence every region `floodFill` returns satisfies the same bounds. -/
theorem floodFill_region_inBounds (W H : Nat) (x y : Int) (base : Color) (px : List Nat)
    (hseed : InBounds W H (x, y)) :
    (∀ n, RegionInBounds W H (runSteps W H x y base px n).region ∧
      ∀ p ∈ (runSteps W H x y base px n).stack, InBounds W H p) ∧
    ∀ fuel r, floodFill fuel W H x y base px = some r → RegionInBounds W H r := by
  have hall : ∀ n, FillInv W H (runSteps W H x y base px n) := fun n =>
    fillInv_stepsFrom W H base px n _ (fillInv_initState W H x y hseed)
  refine ⟨fun n => ⟨(hall n).2, (hall n).1⟩, ?_⟩
  intro fuel r hr
  obtain ⟨n, _, hn⟩ := floodLoop_eq_some W H base px fuel _ r hr
  rw [← hn]
  exact (hall n).2

/-- An instance on a 2×1 buffer of two different pixels, where `floodFill` returns. -/
theorem floodFill_region_inBounds_witness :
    InBounds 2 1 (0, 0) ∧
    floodFill 3 2 1 0 0 grey [200, 200, 200, 255, 0, 0, 0, 255] = some ⟨0, 0, 0, 0⟩ ∧
    RegionInBounds 2 1 ⟨0, 0, 0, 0⟩ :=
  ⟨by decide, by decide,
    (floodFill_region_inBounds 2 1 0 0 grey [200, 200, 200, 255, 0, 0, 0, 255]
      (by decide)).2 3 ⟨0, 0, 0, 0⟩ (by decide)⟩

/-- C2 (evaluation at the failing input): on the 2×1 buffer of two equal pixels, seed
`(0, 0)`, base colour the seed's colour, the stack of `floodFill` is non-empty after every
number of loop iterations. -/
theorem floodFill_two_equal_pixels_stack_never_empty :
    ∀ n, (runSteps 2 1 0 0 (getColorAtPixel 2 0 0 (uniformBuffer 2 200 200 200 255))
      (uniformBuffer 2 200 200 200 255) n).stack ≠ [] :=
  (floodFill_diverges 2 1 0 0 _ _
    ⟨by decide, (1, 0), by decide, by decide, by decide⟩).1

/-- C5 (evaluation at the failing input): on the uniform 4×4 buffer of `(200, 200, 200)`,
seed `(1, 1)`, base colour the seed's colour, `floodFill` returns no region for any amount
of fuel, so it does not return `{0, 0, 3, 3}`. -/
theorem floodFill_uniform4x4_never_returns :
    ∀ fuel, floodFill fuel 4 4 1 1 (getColorAtPixel 4 1 1 grey4x4) grey4x4 = none :=
  (floodFill_diverges 4 4 1 1 _ _
    ⟨by decide, (0, 1), by decide, by decide, by decide⟩).2

/-- C1 (evaluation at the failing input): on the 2×2 buffer whose pixels are
`(200, 200, 200)` except pixel `(1, 1)`, which is black, seed `(0, 0)`, the smallest rectangle
containing the pixels reachable from the seed is `{0, 0, 1, 1}`, and `floodFill` returns no
region for any amount of fuel. -/
theorem floodFill_corner2x2_never_returns :
    IsBoundingBox ⟨0, 0, 1, 1⟩
      (Reachable 2 2 (getColorAtPixel 2 0 0 (uniformBuffer 3 200 200 200 255 ++ [0, 0, 0, 255]))
        (uniformBuffer 3 200 200 200 255 ++ [0, 0, 0, 255]) (0, 0)) ∧
    ∀ fuel, floodFill fuel 2 2 0 0
      (getColorAtPixel 2 0 0 (uniformBuffer 3 200 200 200 255 ++ [0, 0, 0, 255]))
      (uniformBuffer 3 200 200 200 255 ++ [0, 0, 0, 255]) = none := by
  refine ⟨⟨?_, ?_⟩, (floodFill_diverges 2 2 0 0 _ _
    ⟨by decide, (1, 0), by decide, by decide, by decide⟩).2⟩
  · intro p hp
    have hb := reachable_inBounds 2 2 _ _ (0, 0) p (by decide) hp
    unfold InBounds at hb
    simp only
    omega
  · intro r hr
    have h00 := hr (0, 0) (Reachable.seed (by decide))
    have h10 := hr (1, 0) (Reachable.step (0, 0) (1, 0) (Reachable.seed (by decide))
      (by decide) (by decide) (by decide))
    have h01 := hr (0, 1) (Reachable.step (0, 0) (0, 1) (Reachable.seed (by decide))
      (by decide) (by decide) (by decide))
    simp only [RegionWithin] at *
    omega

/-- C6 (counterexample): on the 4×4 buffer of `(200, 200, 200)` with pixel `(3, 3)` black,
`floodFill` from seed `(0, 0)` with base colour `(200, 200, 200)` returns the region
`{0, 0, 2, 2}` for no amount of fuel. -/
theorem floodFill_greyCorner_not_0022 :
    ¬ ∃ fuel, floodFill fuel 4 4 0 0 grey greyCorner4x4 = some ⟨0, 0, 2, 2⟩ := by
  rintro ⟨fuel, h⟩
  have hnone := (floodFill_diverges 4 4 0 0 grey greyCorner4x4
    ⟨by decide, (1, 0), by decide, by decide, by decide⟩).2 fuel
  rw [hnone] at h
  exact Option.noConfusion h

/-- C6 (amended): on the same buffer and seed, the region held by `floodFill` after four or
more loop iterations has `left = 0`, `top = 0` and `bottom = 3`, lies within `{0, 0, 3, 3}`
and is never `{0, 0, 2, 2}`: row 3 is inside the bounding box. -/
theorem floodFill_greyCorner_region_reaches_row3 :
    ∀ n, (runSteps 4 4 0 0 grey greyCorner4x4 (n + 4)).region.left = 0 ∧
      (runSteps 4 4 0 0 grey greyCorner4x4 (n + 4)).region.top = 0 ∧
      (runSteps 4 4 0 0 grey greyCorner4x4 (n + 4)).region.bottom = 3 ∧
      (runSteps 4 4 0 0 grey greyCorner4x4 (n + 4)).region.right ≤ 3 ∧
      (runSteps 4 4 0 0 grey greyCorner4x4 (n + 4)).region ≠ ⟨0, 0, 2, 2⟩ := by
  intro n
  have h4 : (runSteps 4 4 0 0 grey greyCorner4x4 4).region = ⟨0, 0, 0, 3⟩ := by decide
  have hmono := regionWithin_stepsFrom 4 4 grey greyCorner4x4 n
    (runSteps 4 4 0 0 grey greyCorner4x4 4)
  have hinv := (fillInv_stepsFrom 4 4 grey greyCorner4x4 (n + 4) _
    (fillInv_initState 4 4 0 0 (by decide))).2
  have hadd : runSteps 4 4 0 0 grey greyCorner4x4 (n + 4)
      = stepsFrom 4 4 grey greyCorner4x4 n (runSteps 4 4 0 0 grey greyCorner4x4 4) :=
    stepsFrom_add 4 4 grey greyCorner4x4 4 n _
  rw [← hadd, h4] at hmono
  change RegionInBounds 4 4 (runSteps 4 4 0 0 grey greyCorner4x4 (n + 4)).region at hinv
  generalize (runSteps 4 4 0 0 grey greyCorner4x4 (n + 4)).region = r at hmono hinv
  obtain ⟨l, t, rt, b⟩ := r
  simp only [RegionWithin, RegionInBounds] at hmono hinv
  have hb : b = 3 := by omega
  refine ⟨by simp only; omega, by simp only; omega, by simp only; omega, by simp only; omega, ?_⟩
  intro hEq
  have := congrArg Region.bottom hEq
  simp only at this
  omega

/-- C3 (evaluation at the failing input): on the 4×4 buffer of `(200, 200, 200, 255)` with
region `{0, 0, 3, 3}` and colour `(255, 0, 0)`, the recolour loop of `applyColorToWall`
leaves the pixels `(3, 0)`, `(0, 3)` and `(3, 3)` at `(200, 200, 200)`, while pixel `(2, 2)`
becomes `(255, 0, 0)`. -/
theorem applyColorToWall_skips_last_row_and_column :
    getColorAtPixel 4 3 3 (applyColorToWall 4 (some ⟨0, 0, 3, 3⟩) (255, 0, 0) grey4x4) = grey ∧
    getColorAtPixel 4 3 0 (applyColorToWall 4 (some ⟨0, 0, 3, 3⟩) (255, 0, 0) grey4x4) = grey ∧
    getColorAtPixel 4 0 3 (applyColorToWall 4 (some ⟨0, 0, 3, 3⟩) (255, 0, 0) grey4x4) = grey ∧
    getColorAtPixel 4 2 2 (applyColorToWall 4 (some ⟨0, 0, 3, 3⟩) (255, 0, 0) grey4x4)
      = ⟨some 255, some 0, some 0⟩ := by
  decide

/-! ## The recolour loop writes only inside the region -/

theorem readByte_writeByte_ne (px : List Nat) (i j : Int) (v : Nat) (h : j ≠ i) :
    readByte (writeByte px i v) j = readByte px j := by
  unfold readByte writeByte
  by_cases hj : j < 0
  · simp [hj]
  · by_cases hi : i < 0
    · simp [hi]
    · have hne : i.toNat ≠ j.toNat := by omega
      simp [hj, hi, List.getElem?_set_ne hne]

theorem length_writeByte (px : List Nat) (i : Int) (v : Nat) :
    (writeByte px i v).length = px.length := by
  unfold writeByte
  split_ifs <;> simp

theorem readByte_paintPixel (W : Nat) (color : Nat × Nat × Nat) (px : List Nat) (x y j : Int)
    (h : ∀ c : Int, 0 ≤ c → c < 3 → j ≠ (y * W + x) * 4 + c) :
    readByte (paintPixel W color px x y) j = readByte px j := by
  have h0 := h 0 (by omega) (by omega)
  have h1 := h 1 (by omega) (by omega)
  have h2 := h 2 (by omega) (by omega)
  simp only [add_zero] at h0
  simp only [paintPixel]
  rw [readByte_writeByte_ne _ _ _ _ h2, readByte_writeByte_ne _ _ _ _ h1,
    readByte_writeByte_ne _ _ _ _ h0]

theorem length_paintPixel (W : Nat) (color : Nat × Nat × Nat) (px : List Nat) (x y : Int) :
    (paintPixel W color px x y).length = px.length := by
  simp [paintPixel, length_writeByte]

theorem readByte_paintRow (W : Nat) (color : Nat × Nat × Nat) (y j : Int) (n : Nat) :
    ∀ (x0 : Int) (px : List Nat),
      (∀ k : Nat, k < n → ∀ c : Int, 0 ≤ c → c < 3 → j ≠ (y * W + (x0 + k)) * 4 + c) →
        readByte (paintRow W color y n x0 px) j = readByte px j := by
  induction n with
  | zero => intro x0 px _; rfl
  | succ n ih =>
    intro x0 px h
    simp only [paintRow]
    rw [ih (x0 + 1) _ ?_, readByte_paintPixel W color px x0 y j ?_]
    · intro c hc0 hc3
      have := h 0 (by omega) c hc0 hc3
      simpa using this
    · intro k hk c hc0 hc3
      have := h (k + 1) (by omega) c hc0 hc3
      have e : x0 + 1 + (k : Int) = x0 + ((k + 1 : Nat) : Int) := by push_cast; ring
      rw [e]
      exact this

theorem length_paintRow (W : Nat) (color : Nat × Nat × Nat) (y : Int) (n : Nat) :
    ∀ (x0 : Int) (px : List Nat), (paintRow W color y n x0 px).length = px.length := by
  induction n with
  | zero => intro x0 px; rfl
  | succ n ih => intro x0 px; simp only [paintRow]; rw [ih, length_paintPixel]

theorem readByte_paintRows (W : Nat) (color : Nat × Nat × Nat) (region : Region) (j : Int)
    (n : Nat) : ∀ (y0 : Int) (px : List Nat),
      (∀ m : Nat, m < n → ∀ k : Nat, k < (region.right - region.left).toNat →
        ∀ c : Int, 0 ≤ c → c < 3 → j ≠ ((y0 + m) * W + (region.left + k)) * 4 + c) →
        readByte (paintRows W color region n y0 px) j = readByte px j := by
  induction n with
  | zero => intro y0 px _; rfl
  | succ n ih =>
    intro y0 px h
    simp only [paintRows]
    rw [ih (y0 + 1) _ ?_, readByte_paintRow W color y0 j _ region.left px ?_]
    · intro k hk c hc0 hc3
      have := h 0 (by omega) k hk c hc0 hc3
      simpa using this
    · intro m hm k hk c hc0 hc3
      have := h (m + 1) (by omega) k hk c hc0 hc3
      have e : y0 + 1 + (m : Int) = y0 + ((m + 1 : Nat) : Int) := by push_cast; ring
      rw [e]
      exact this

theorem length_paintRows (W : Nat) (color : Nat × Nat × Nat) (region : Region) (n : Nat) :
    ∀ (y0 : Int) (px : List Nat), (paintRows W color region n y0 px).length = px.length := by
  induction n with
  | zero => intro y0 px; rfl
  | succ n ih => intro y0 px; simp only [paintRows]; rw [ih, length_paintRow]

/-- A byte that is not a colour byte of a pixel visited by the loop keeps its value. -/
theorem readByte_recolor_of_not_painted (W : Nat) (region : Region) (color : Nat × Nat × Nat)
    (px : List Nat) (j : Int) (h : ¬ Painted W region j) :
    readByte (recolor W region color px) j = readByte px j := by
  unfold recolor
  apply readByte_paintRows
  intro m hm k hk c hc0 hc3 hj
  exact h ⟨region.left + k, region.top + m, c, by omega, by omega, by omega, by omega,
    hc0, hc3, hj⟩

/-- A pixel index `y * W + x` with `0 ≤ x < W` determines the row and the column. -/
theorem row_col_unique (W x y x' y' : Int) (hx : 0 ≤ x) (hxW : x < W) (hx' : 0 ≤ x')
    (hxW' : x' < W) (h : y * W + x = y' * W + x') : y = y' ∧ x = x' := by
  have hy : y = y' := by
    rcases lt_trichotomy y y' with hlt | heq | hgt
    · exfalso
      have h1 : (y + 1) * W ≤ y' * W := mul_le_mul_of_nonneg_right (by omega) (by omega)
      have h2 : (y + 1) * W = y * W + W := by ring
      omega
    · exact heq
    · exfalso
      have h1 : (y' + 1) * W ≤ y * W := mul_le_mul_of_nonneg_right (by omega) (by omega)
      have h2 : (y' + 1) * W = y' * W + W := by ring
      omega
  subst hy
  exact ⟨rfl, by omega⟩

/-- C4: for a region whose columns lie within the buffer (`0 ≤ left`, `right ≤ W - 1`; the rows
are unconstrained), the recolour loop of `applyColorToWall` keeps the length of the byte array
and changes no alpha byte and no byte of a pixel `(x, y)`, `0 ≤ x < W`, with `x < left`,
`x > right`, `y < top` or `y > bottom`. -/
theorem applyColorToWall_frame (W : Nat) (region : Region) (color : Nat × Nat × Nat)
    (px : List Nat) (hleft : 0 ≤ region.left) (hright : region.right ≤ (W : Int) - 1) :
    (applyColorToWall W (some region) color px).length = px.length ∧
    ∀ x y c : Int, 0 ≤ x → x < W → 0 ≤ c → c < 4 →
      (c = 3 ∨ x < region.left ∨ region.right < x ∨ y < region.top ∨ region.bottom < y) →
      readByte (applyColorToWall W (some region) color px) ((y * W + x) * 4 + c)
        = readByte px ((y * W + x) * 4 + c) := by
  refine ⟨?_, ?_⟩
  · simp only [applyColorToWall, recolor]
    exact length_paintRows W color region _ _ px
  · intro x y c hx hxW hc0 hc4 hout
    simp only [applyColorToWall]
    apply readByte_recolor_of_not_painted
    rintro ⟨x', y', c', hl, hr, ht, hb, hc0', hc3', hj⟩
    have hcc : c = c' ∧ y * W + x = y' * W + x' := by omega
    obtain ⟨hyy, hxx⟩ := row_col_unique W x y x' y' hx hxW (by omega) (by omega) hcc.2
    omega

/-- Witness of C4 on the 4×4 buffer with region `{1, 1, 2, 2}`: the red byte of pixel
`(3, 1)`, the column right of the region, is unchanged. -/
theorem applyColorToWall_frame_witness :
    (0 : Int) ≤ 1 ∧ (2 : Int) ≤ ((4 : Nat) : Int) - 1 ∧
    readByte (applyColorToWall 4 (some ⟨1, 1, 2, 2⟩) (255, 0, 0) grey4x4)
        ((1 * ((4 : Nat) : Int) + 3) * 4 + 0)
      = readByte grey4x4 ((1 * ((4 : Nat) : Int) + 3) * 4 + 0) :=
  ⟨by decide, by decide,
    (applyColorToWall_frame 4 ⟨1, 1, 2, 2⟩ (255, 0, 0) grey4x4 (by decide) (by decide)).2
      3 1 0 (by decide) (by decide) (by decide) (by decide) (Or.inr (Or.inr (Or.inl (by decide))))⟩

/-- C8 (evaluation at the failing input): on the 1×2 buffer of two equal pixels, seed
`(0, 0)`, base colour the seed's colour, the visited-set variant returns the region
`{0, 0, 0, 1}` while `floodFill` returns no region for any amount of fuel. -/
theorem floodFill_differs_from_visited_variant :
    floodFillVisited 5 1 2 0 0 (getColorAtPixel 1 0 0 (uniformBuffer 2 200 200 200 255))
        (uniformBuffer 2 200 200 200 255) = some ⟨0, 0, 0, 1⟩ ∧
    ∀ fuel, floodFill fuel 1 2 0 0 (getColorAtPixel 1 0 0 (uniformBuffer 2 200 200 200 255))
        (uniformBuffer 2 200 200 200 255) = none :=
  ⟨by decide, (floodFill_diverges 1 2 0 0 _ _
    ⟨by decide, (0, 1), by decide, by decide, by decide⟩).2⟩

/-! ## The loop on unrounded coordinates -/

theorem unrounded_floodStep_similar (W H : Nat) (base : Color) (px : List Nat) (cx cy : ℚ)
    (rest : List (ℚ × ℚ)) (reg : Unrounded.Region)
    (h : Unrounded.similar W base px cx cy = true) :
    Unrounded.floodStep W H base px ⟨(cx, cy) :: rest, reg⟩
      = ⟨Unrounded.pushNeighbours W H cx cy rest, Unrounded.growRegion reg cx cy⟩ := by
  simp [Unrounded.floodStep, h]

theorem unrounded_floodStep_dissimilar (W H : Nat) (base : Color) (px : List Nat) (cx cy : ℚ)
    (rest : List (ℚ × ℚ)) (reg : Unrounded.Region)
    (h : Unrounded.similar W base px cx cy = false) :
    Unrounded.floodStep W H base px ⟨(cx, cy) :: rest, reg⟩ = ⟨rest, reg⟩ := by
  simp [Unrounded.floodStep, h]

theorem unrounded_mem_pushNeighbours (W H : Nat) (cx cy : ℚ) (st : List (ℚ × ℚ))
    (q : ℚ × ℚ) :
    q ∈ Unrounded.pushNeighbours W H cx cy st ↔
      q ∈ st ∨ (0 < cx ∧ q = (cx - 1, cy)) ∨ (0 < cy ∧ q = (cx, cy - 1)) ∨
        (cx < (W : ℚ) - 1 ∧ q = (cx + 1, cy)) ∨ (cy < (H : ℚ) - 1 ∧ q = (cx, cy + 1)) := by
  unfold Unrounded.pushNeighbours
  by_cases h1 : cx > 0 <;> by_cases h2 : cy > 0 <;> by_cases h3 : cx < (W : ℚ) - 1 <;>
    by_cases h4 : cy < (H : ℚ) - 1 <;>
    simp only [h1, h2, h3, h4, if_true, if_false, List.mem_cons, gt_iff_lt, true_and,
      false_and, or_false, false_or] <;> tauto

theorem unrounded_holdsRebounding_floodStep (W H : Nat) (base : Color) (px : List Nat)
    (s : Unrounded.FillState) (h : Unrounded.HoldsRebounding W H base px s) :
    Unrounded.HoldsRebounding W H base px (Unrounded.floodStep W H base px s) := by
  obtain ⟨stack, reg⟩ := s
  obtain ⟨p, hp, hgood⟩ := h
  cases stack with
  | nil => simp at hp
  | cons top rest =>
    obtain ⟨cx, cy⟩ := top
    have hnil : ∀ q, q ∈ Unrounded.pushNeighbours W H cx cy [] →
        q ∈ Unrounded.pushNeighbours W H cx cy rest := by
      intro q hq
      rw [unrounded_mem_pushNeighbours] at hq ⊢
      rcases hq with hq | hq
      · simp at hq
      · exact Or.inr hq
    have hmem : ∀ q, q ∈ rest → q ∈ Unrounded.pushNeighbours W H cx cy rest := by
      intro q hq
      rw [unrounded_mem_pushNeighbours]
      exact Or.inl hq
    rcases List.mem_cons.1 hp with rfl | hrest
    · obtain ⟨hsim, q, hq, hqsim, hback⟩ := hgood
      rw [unrounded_floodStep_similar W H base px cx cy rest reg hsim]
      exact ⟨q, hnil q hq, hqsim, (cx, cy), hback, hsim, hq⟩
    · by_cases hsim : Unrounded.similar W base px cx cy = true
      · rw [unrounded_floodStep_similar W H base px cx cy rest reg hsim]
        exact ⟨p, hmem p hrest, hgood⟩
      · rw [unrounded_floodStep_dissimilar W H base px cx cy rest reg (by simpa using hsim)]
        exact ⟨p, hrest, hgood⟩

theorem unrounded_holdsRebounding_stepsFrom (W H : Nat) (base : Color) (px : List Nat)
    (n : Nat) : ∀ s : Unrounded.FillState, Unrounded.HoldsRebounding W H base px s →
      Unrounded.HoldsRebounding W H base px (Unrounded.stepsFrom W H base px n s) := by
  induction n with
  | zero => intro s h; exact h
  | succ n ih =>
    intro s h
    exact ih _ (unrounded_holdsRebounding_floodStep W H base px s h)

theorem unrounded_stack_ne_nil_of_holdsRebounding (W H : Nat) (base : Color) (px : List Nat)
    (s : Unrounded.FillState) (h : Unrounded.HoldsRebounding W H base px s) : s.stack ≠ [] := by
  obtain ⟨p, hp, _⟩ := h
  exact List.ne_nil_of_mem hp

theorem unrounded_floodLoop_none_of_holdsRebounding (W H : Nat) (base : Color)
    (px : List Nat) (fuel : Nat) :
    ∀ s : Unrounded.FillState, Unrounded.HoldsRebounding W H base px s →
      Unrounded.floodLoop W H base px fuel s = none := by
  induction fuel with
  | zero => intro s _; rfl
  | succ fuel ih =>
    intro s h
    have hne := unrounded_stack_ne_nil_of_holdsRebounding W H base px s h
    have : s.stack.isEmpty = false := by
      cases hs : s.stack with
      | nil => exact absurd hs hne
      | cons a l => rfl
    simp only [Unrounded.floodLoop, this]
    exact ih _ (unrounded_holdsRebounding_floodStep W H base px s h)

/-- The loop never ends when the seed passes the colour test and one of its pushed
neighbours passes it and pushes the seed back. -/
theorem unrounded_floodFill_diverges (W H : Nat) (x y : ℚ) (base : Color) (px : List Nat)
    (h : Unrounded.Rebounding W H base px (x, y)) :
    (∀ n, (Unrounded.runSteps W H x y base px n).stack ≠ []) ∧
      ∀ fuel, Unrounded.floodFill fuel W H x y base px = none := by
  have h0 : Unrounded.HoldsRebounding W H base px (Unrounded.initState x y) :=
    ⟨(x, y), by simp [Unrounded.initState], h⟩
  exact ⟨fun n => unrounded_stack_ne_nil_of_holdsRebounding W H base px _
      (unrounded_holdsRebounding_stepsFrom W H base px n _ h0),
    fun fuel => unrounded_floodLoop_none_of_holdsRebounding W H base px fuel _ h0⟩

theorem unrounded_regionWithin_refl (r : Unrounded.Region) : Unrounded.RegionWithin r r := by
  simp [Unrounded.RegionWithin]

theorem unrounded_regionWithin_trans (a b c : Unrounded.Region)
    (h1 : Unrounded.RegionWithin a b) (h2 : Unrounded.RegionWithin b c) :
    Unrounded.RegionWithin a c := by
  unfold Unrounded.RegionWithin at *
  refine ⟨?_, ?_, ?_, ?_⟩ <;> linarith

theorem unrounded_regionWithin_floodStep (W H : Nat) (base : Color) (px : List Nat)
    (s : Unrounded.FillState) :
    Unrounded.RegionWithin s.region (Unrounded.floodStep W H base px s).region := by
  obtain ⟨stack, reg⟩ := s
  cases stack with
  | nil => exact unrounded_regionWithin_refl _
  | cons top rest =>
    obtain ⟨cx, cy⟩ := top
    by_cases hsim : Unrounded.similar W base px cx cy = true
    · rw [unrounded_floodStep_similar W H base px cx cy rest reg hsim]
      exact ⟨min_le_left _ _, min_le_left _ _, le_max_left _ _, le_max_left _ _⟩
    · rw [unrounded_floodStep_dissimilar W H base px cx cy rest reg (by simpa using hsim)]
      exact unrounded_regionWithin_refl _

theorem unrounded_regionWithin_stepsFrom (W H : Nat) (base : Color) (px : List Nat) (n : Nat) :
    ∀ s : Unrounded.FillState,
      Unrounded.RegionWithin s.region (Unrounded.stepsFrom W H base px n s).region := by
  induction n with
  | zero => intro s; exact unrounded_regionWithin_refl _
  | succ n ih =>
    intro s
    exact unrounded_regionWithin_trans _ _ _
      (unrounded_regionWithin_floodStep W H base px s) (ih _)

theorem unrounded_stepsFrom_add (W H : Nat) (base : Color) (px : List Nat) (m n : Nat) :
    ∀ s : Unrounded.FillState, Unrounded.stepsFrom W H base px (n + m) s
      = Unrounded.stepsFrom W H base px n (Unrounded.stepsFrom W H base px m s) := by
  induction m with
  | zero => intro s; rfl
  | succ m ih =>
    intro s
    rw [← Nat.add_assoc]
    simp only [Unrounded.stepsFrom]
    exact ih _

theorem unrounded_floodLoop_eq_some (W H : Nat) (base : Color) (px : List Nat) (fuel : Nat) :
    ∀ (s : Unrounded.FillState) (r : Unrounded.Region),
      Unrounded.floodLoop W H base px fuel s = some r →
      ∃ n, (Unrounded.stepsFrom W H base px n s).stack = [] ∧
        (Unrounded.stepsFrom W H base px n s).region = r := by
  induction fuel with
  | zero => intro s r h; simp [Unrounded.floodLoop] at h
  | succ fuel ih =>
    intro s r h
    cases hs : s.stack with
    | nil =>
      simp only [Unrounded.floodLoop, hs, List.isEmpty_nil, if_true, Option.some.injEq] at h
      exact ⟨0, hs, h⟩
    | cons top rest =>
      simp only [Unrounded.floodLoop, hs, List.isEmpty_cons, Bool.false_eq_true, if_false] at h
      obtain ⟨n, hn1, hn2⟩ := ih _ r h
      exact ⟨n + 1, hn1, hn2⟩

/-- The region held after any number of iterations contains the seed point. -/
theorem unrounded_region_contains_seed (W H : Nat) (x y : ℚ) (base : Color) (px : List Nat)
    (n : Nat) : Unrounded.Contains (Unrounded.runSteps W H x y base px n).region x y := by
  have h := unrounded_regionWithin_stepsFrom W H base px n (Unrounded.initState x y)
  simp only [Unrounded.RegionWithin, Unrounded.initState] at h
  exact ⟨h.1, h.2.2.1, h.2.1, h.2.2.2⟩

/-- A region that contains a point outside the buffer violates the Region invariant. -/
theorem unrounded_not_regionInBounds_of_contains (W H : Nat) (x y : ℚ) (r : Unrounded.Region)
    (hout : ¬ Unrounded.InBounds W H (x, y)) (hc : Unrounded.Contains r x y) :
    ¬ Unrounded.RegionInBounds W H r := by
  intro hr
  apply hout
  unfold Unrounded.RegionInBounds at hr
  unfold Unrounded.Contains at hc
  unfold Unrounded.InBounds
  refine ⟨?_, ?_, ?_, ?_⟩ <;> simp only <;> linarith

/-- A read at a number that is at least the length of the array gives `undefined`. -/
theorem unrounded_readByte_of_length_le (px : List Nat) (i : ℚ) (h : (px.length : ℚ) ≤ i) :
    Unrounded.readByte px i = none := by
  unfold Unrounded.readByte
  split_ifs with hden
  · have hnum : ((i.num : ℤ) : ℚ) = i := (Rat.den_eq_one_iff i).1 hden
    have hle : (px.length : ℤ) ≤ i.num := by
      have : ((px.length : ℤ) : ℚ) ≤ ((i.num : ℤ) : ℚ) := by rw [hnum]; exact_mod_cast h
      exact_mod_cast this
    unfold ColorVizulizer.readByte
    split_ifs with hneg
    · rfl
    · rw [List.getElem?_eq_none_iff]
      omega
  · rfl

/-! ## Integer coordinates: the two embeddings agree -/

theorem unrounded_readByte_intCast (px : List Nat) (i : ℤ) :
    Unrounded.readByte px (i : ℚ) = readByte px i := by
  simp [Unrounded.readByte]

theorem unrounded_similar_intCast (W : Nat) (base : Color) (px : List Nat) (cx cy : ℤ) :
    Unrounded.similar W base px (cx : ℚ) (cy : ℚ) = similar W base px cx cy := by
  have e0 : ((cy : ℚ) * (W : ℚ) + (cx : ℚ)) * 4 = (((cy * (W : ℤ) + cx) * 4 : ℤ) : ℚ) := by
    push_cast; ring
  have e1 : ((cy : ℚ) * (W : ℚ) + (cx : ℚ)) * 4 + 1
      = (((cy * (W : ℤ) + cx) * 4 + 1 : ℤ) : ℚ) := by push_cast; ring
  have e2 : ((cy : ℚ) * (W : ℚ) + (cx : ℚ)) * 4 + 2
      = (((cy * (W : ℤ) + cx) * 4 + 2 : ℤ) : ℚ) := by push_cast; ring
  unfold Unrounded.similar similar Unrounded.colorDiff colorDiff
  simp only
  rw [e1, e2, e0]
  simp only [unrounded_readByte_intCast]

theorem unrounded_pushNeighbours_intCast (W H : Nat) (cx cy : ℤ) (st : List (ℤ × ℤ)) :
    Unrounded.pushNeighbours W H (cx : ℚ) (cy : ℚ) (st.map castPoint)
      = (pushNeighbours W H cx cy st).map castPoint := by
  have c1 : ((cx : ℚ) > 0) ↔ (cx > 0) := by simp
  have c2 : ((cy : ℚ) > 0) ↔ (cy > 0) := by simp
  have c3 : ((cx : ℚ) < (W : ℚ) - 1) ↔ (cx < (W : ℤ) - 1) := by
    have e : (W : ℚ) - 1 = (((W : ℤ) - 1 : ℤ) : ℚ) := by push_cast; rfl
    rw [e]
    exact Int.cast_lt
  have c4 : ((cy : ℚ) < (H : ℚ) - 1) ↔ (cy < (H : ℤ) - 1) := by
    have e : (H : ℚ) - 1 = (((H : ℤ) - 1 : ℤ) : ℚ) := by push_cast; rfl
    rw [e]
    exact Int.cast_lt
  unfold Unrounded.pushNeighbours pushNeighbours
  simp only [c1, c2, c3, c4]
  by_cases h1 : cx > 0 <;> by_cases h2 : cy > 0 <;> by_cases h3 : cx < (W : ℤ) - 1 <;>
    by_cases h4 : cy < (H : ℤ) - 1 <;>
    simp [h1, h2, h3, h4, castPoint]

theorem unrounded_growRegion_intCast (r : Region) (cx cy : ℤ) :
    Unrounded.growRegion (castRegion r) (cx : ℚ) (cy : ℚ) = castRegion (growRegion r cx cy) := by
  simp [Unrounded.growRegion, growRegion, castRegion, Int.cast_min, Int.cast_max]

theorem unrounded_floodStep_intCast (W H : Nat) (base : Color) (px : List Nat) (s : FillState) :
    Unrounded.floodStep W H base px (castState s) = castState (floodStep W H base px s) := by
  obtain ⟨stack, reg⟩ := s
  cases stack with
  | nil => rfl
  | cons top rest =>
    obtain ⟨cx, cy⟩ := top
    by_cases hsim : similar W base px cx cy = true
    · have hq : Unrounded.similar W base px (cx : ℚ) (cy : ℚ) = true := by
        rw [unrounded_similar_intCast]; exact hsim
      rw [floodStep_similar W H base px cx cy rest reg hsim]
      simp only [castState, List.map_cons, castPoint]
      rw [unrounded_floodStep_similar W H base px _ _ _ _ hq, unrounded_growRegion_intCast]
      have := unrounded_pushNeighbours_intCast W H cx cy rest
      simp only [castPoint] at this
      rw [this]
    · have hsim2 : similar W base px cx cy = false := by simpa using hsim
      have hq : Unrounded.similar W base px (cx : ℚ) (cy : ℚ) = false := by
        rw [unrounded_similar_intCast]; exact hsim2
      rw [floodStep_dissimilar W H base px cx cy rest reg hsim2]
      simp only [castState, List.map_cons, castPoint]
      rw [unrounded_floodStep_dissimilar W H base px _ _ _ _ hq]

theorem unrounded_stepsFrom_intCast (W H : Nat) (base : Color) (px : List Nat) (n : Nat) :
    ∀ s : FillState, Unrounded.stepsFrom W H base px n (castState s)
      = castState (stepsFrom W H base px n s) := by
  induction n with
  | zero => intro s; rfl
  | succ n ih =>
    intro s
    simp only [Unrounded.stepsFrom, stepsFrom]
    rw [unrounded_floodStep_intCast, ih]

/-- On an integer seed the loop on unrounded coordinates is the loop on integer coordinates. -/
theorem unrounded_runSteps_intCast (W H : Nat) (x y : ℤ) (base : Color) (px : List Nat)
    (n : Nat) :
    Unrounded.runSteps W H (x : ℚ) (y : ℚ) base px n = castState (runSteps W H x y base px n) :=
  unrounded_stepsFrom_intCast W H base px n (initState x y)

theorem unrounded_floodLoop_intCast (W H : Nat) (base : Color) (px : List Nat) (fuel : Nat) :
    ∀ s : FillState, Unrounded.floodLoop W H base px fuel (castState s)
      = (floodLoop W H base px fuel s).map castRegion := by
  induction fuel with
  | zero => intro s; rfl
  | succ fuel ih =>
    intro s
    obtain ⟨stack, reg⟩ := s
    cases stack with
    | nil => simp [Unrounded.floodLoop, floodLoop, castState]
    | cons top rest =>
      have h := ih (floodStep W H base px ⟨top :: rest, reg⟩)
      rw [← unrounded_floodStep_intCast] at h
      simpa [Unrounded.floodLoop, floodLoop, castState] using h

/-- On an integer seed `floodFill` on unrounded coordinates returns what `floodFill` on
integer coordinates returns. -/
theorem unrounded_floodFill_intCast (fuel W H : Nat) (x y : ℤ) (base : Color) (px : List Nat) :
    Unrounded.floodFill fuel W H (x : ℚ) (y : ℚ) base px
      = (floodFill fuel W H x y base px).map castRegion :=
  unrounded_floodLoop_intCast W H base px fuel (initState x y)

theorem unrounded_getColorAtPixel_intCast (W : Nat) (x y : ℤ) (px : List Nat) :
    Unrounded.getColorAtPixel W (x : ℚ) (y : ℚ) px = getColorAtPixel W x y px := by
  have e0 : ((y : ℚ) * (W : ℚ) + (x : ℚ)) * 4 = (((y * (W : ℤ) + x) * 4 : ℤ) : ℚ) := by
    push_cast; ring
  have e1 : ((y : ℚ) * (W : ℚ) + (x : ℚ)) * 4 + 1
      = (((y * (W : ℤ) + x) * 4 + 1 : ℤ) : ℚ) := by push_cast; ring
  have e2 : ((y : ℚ) * (W : ℚ) + (x : ℚ)) * 4 + 2
      = (((y * (W : ℤ) + x) * 4 + 2 : ℤ) : ℚ) := by push_cast; ring
  unfold Unrounded.getColorAtPixel getColorAtPixel
  simp only
  rw [e1, e2, e0]
  simp only [unrounded_readByte_intCast]

/-! ## The claims on unrounded and out-of-bounds seeds -/

/-- C9 (evaluation at the failing input): on the 2×2 buffer `mixed2x2` the click position
`(1/2, 1)` is inside the buffer; `getColorAtPixel` reads the bytes 10, 11, 12, the first
iteration pushes `(-1/2, 1)`, a coordinate outside the buffer, and from the fourth iteration
on the region has `left ≤ -1/2` and violates the Region invariant. -/
theorem unrounded_seed_region_leaves_buffer :
    Unrounded.InBounds 2 2 (1/2, 1) ∧
    Unrounded.getColorAtPixel 2 (1/2) 1 mixed2x2 = ⟨some 100, some 255, some 100⟩ ∧
    (-1/2, 1) ∈ (Unrounded.runSteps 2 2 (1/2) 1
      (Unrounded.getColorAtPixel 2 (1/2) 1 mixed2x2) mixed2x2 1).stack ∧
    ¬ Unrounded.InBounds 2 2 (-1/2, 1) ∧
    (Unrounded.runSteps 2 2 (1/2) 1
      (Unrounded.getColorAtPixel 2 (1/2) 1 mixed2x2) mixed2x2 4).region = ⟨-1/2, 1, 1/2, 1⟩ ∧
    ∀ n, (Unrounded.runSteps 2 2 (1/2) 1
        (Unrounded.getColorAtPixel 2 (1/2) 1 mixed2x2) mixed2x2 (n + 4)).region.left ≤ -1/2 ∧
      ¬ Unrounded.RegionInBounds 2 2 (Unrounded.runSteps 2 2 (1/2) 1
        (Unrounded.getColorAtPixel 2 (1/2) 1 mixed2x2) mixed2x2 (n + 4)).region := by
  have h4 : (Unrounded.runSteps 2 2 (1/2) 1
      (Unrounded.getColorAtPixel 2 (1/2) 1 mixed2x2) mixed2x2 4).region = ⟨-1/2, 1, 1/2, 1⟩ := by
    decide!
  refine ⟨by decide!, by decide!, by decide!, by decide!, h4, ?_⟩
  intro n
  have hmono := unrounded_regionWithin_stepsFrom 2 2
    (Unrounded.getColorAtPixel 2 (1/2) 1 mixed2x2) mixed2x2 n
    (Unrounded.runSteps 2 2 (1/2) 1 (Unrounded.getColorAtPixel 2 (1/2) 1 mixed2x2) mixed2x2 4)
  have hadd : Unrounded.runSteps 2 2 (1/2) 1
      (Unrounded.getColorAtPixel 2 (1/2) 1 mixed2x2) mixed2x2 (n + 4)
      = Unrounded.stepsFrom 2 2 (Unrounded.getColorAtPixel 2 (1/2) 1 mixed2x2) mixed2x2 n
        (Unrounded.runSteps 2 2 (1/2) 1
          (Unrounded.getColorAtPixel 2 (1/2) 1 mixed2x2) mixed2x2 4) :=
    unrounded_stepsFrom_add 2 2 _ mixed2x2 4 n _
  rw [← hadd, h4] at hmono
  have hleft : (Unrounded.runSteps 2 2 (1/2) 1
      (Unrounded.getColorAtPixel 2 (1/2) 1 mixed2x2) mixed2x2 (n + 4)).region.left ≤ -1/2 :=
    hmono.1
  refine ⟨hleft, ?_⟩
  intro hinv
  have h0 := hinv.2.2.1
  linarith

/-- C10 (counterexample): on the 2×2 buffer `mixed2x2` the unrounded seed `(1/2, 1)` is inside
the buffer; with base colour the seed's colour, no in-bounds 4-neighbour of the seed passes
the colour test, yet the stack is never empty and `floodFill` returns for no amount of fuel:
the seed and the out-of-buffer coordinate `(-1/2, 1)` push each other. -/
theorem unrounded_seed_diverges_without_inBounds_neighbour :
    Unrounded.InBounds 2 2 (1/2, 1) ∧
    (¬ ∃ q, Unrounded.Adjacent4 (1/2, 1) q ∧ Unrounded.InBounds 2 2 q ∧
      Unrounded.similar 2 (Unrounded.getColorAtPixel 2 (1/2) 1 mixed2x2) mixed2x2 q.1 q.2
        = true) ∧
    (∀ n, (Unrounded.runSteps 2 2 (1/2) 1
      (Unrounded.getColorAtPixel 2 (1/2) 1 mixed2x2) mixed2x2 n).stack ≠ []) ∧
    ∀ fuel, Unrounded.floodFill fuel 2 2 (1/2) 1
      (Unrounded.getColorAtPixel 2 (1/2) 1 mixed2x2) mixed2x2 = none := by
  refine ⟨by decide!, ?_, unrounded_floodFill_diverges 2 2 (1/2) 1 _ mixed2x2
    ⟨by decide!, (-1/2, 1), by decide!, by decide!, by decide!⟩⟩
  rintro ⟨q, hadj, hb, hs⟩
  rcases hadj with rfl | rfl | rfl | rfl
  · exact absurd hb (by decide!)
  · exact absurd hs (by decide!)
  · exact absurd hs (by decide!)
  · exact absurd hb (by decide!)

/-- C7 (counterexample): on the 2×2 buffer `steps2x2` of four different colours, the
out-of-bounds seed `(2, 0)` raises no error: `getColorAtPixel` reads the bytes of pixel
`(0, 1)` and region detection returns the region `{2, 0, 2, 0}`. -/
theorem unrounded_detect_out_of_bounds_seed_returns_region :
    ¬ Unrounded.InBounds 2 2 (2, 0) ∧
    Unrounded.getColorAtPixel 2 2 0 steps2x2 = ⟨some 170, some 170, some 170⟩ ∧
    Unrounded.detect 4 2 2 2 0 steps2x2 = some ⟨2, 0, 2, 0⟩ := by
  decide!

/-- C7 (amended): for every seed outside the buffer, region detection runs the loop from the
seed without a bounds check: the region held after every loop iteration, and every region
returned, contains the seed point and so does not lie within the buffer. When the buffer has
`4 * W * H` bytes and the seed has `x ≥ 0` and `y ≥ H`, the seed's colour reads `undefined` and
the single-point region `{x, y, x, y}` is returned after one iteration. -/
theorem unrounded_detect_out_of_bounds (W H : Nat) (x y : ℚ) (px : List Nat)
    (hout : ¬ Unrounded.InBounds W H (x, y)) :
    (∀ n, Unrounded.Contains (Unrounded.runSteps W H x y
        (Unrounded.getColorAtPixel W x y px) px n).region x y ∧
      ¬ Unrounded.RegionInBounds W H (Unrounded.runSteps W H x y
        (Unrounded.getColorAtPixel W x y px) px n).region) ∧
    (∀ fuel r, Unrounded.detect fuel W H x y px = some r →
      Unrounded.Contains r x y ∧ ¬ Unrounded.RegionInBounds W H r) ∧
    (px.length = 4 * W * H → 0 ≤ x → (H : ℚ) ≤ y →
      ∀ fuel, Unrounded.detect (fuel + 2) W H x y px = some ⟨x, y, x, y⟩) := by
  have hall : ∀ n, Unrounded.Contains (Unrounded.runSteps W H x y
        (Unrounded.getColorAtPixel W x y px) px n).region x y ∧
      ¬ Unrounded.RegionInBounds W H (Unrounded.runSteps W H x y
        (Unrounded.getColorAtPixel W x y px) px n).region := by
    intro n
    have hc := unrounded_region_contains_seed W H x y (Unrounded.getColorAtPixel W x y px) px n
    exact ⟨hc, unrounded_not_regionInBounds_of_contains W H x y _ hout hc⟩
  refine ⟨hall, ?_, ?_⟩
  · intro fuel r hr
    obtain ⟨n, _, hn⟩ := unrounded_floodLoop_eq_some W H _ px fuel _ r hr
    have := hall n
    unfold Unrounded.runSteps at this
    rw [hn] at this
    exact this
  · intro hlen hx hy fuel
    have hidx : (px.length : ℚ) ≤ (y * W + x) * 4 := by
      have hW : (0 : ℚ) ≤ (W : ℚ) := Nat.cast_nonneg W
      have hmul : (H : ℚ) * (W : ℚ) ≤ y * (W : ℚ) := mul_le_mul_of_nonneg_right hy hW
      rw [hlen]
      push_cast
      linarith
    have hr : Unrounded.readByte px ((y * W + x) * 4) = none :=
      unrounded_readByte_of_length_le px _ hidx
    have hsim : Unrounded.similar W (Unrounded.getColorAtPixel W x y px) px x y = false := by
      simp [Unrounded.similar, Unrounded.colorDiff, hr, absDiff, addNum]
    simp only [Unrounded.detect, Unrounded.floodFill, Unrounded.initState, Unrounded.floodLoop,
      List.isEmpty_cons, Bool.false_eq_true, if_false,
      unrounded_floodStep_dissimilar W H _ px x y [] _ hsim, List.isEmpty_nil, if_true]

/-- Witness of C7 (amended): on the 2×2 buffer `pair2x2` the out-of-bounds seed `(-1, 1)`
reads the bytes of pixel `(1, 0)` and region detection returns `{-1, 1, 0, 1}`, which
contains the seed and does not lie within the buffer; the seed `(1/2, 5)` below the buffer
gets the region `{1/2, 5, 1/2, 5}`. -/
theorem unrounded_detect_out_of_bounds_witness :
    ¬ Unrounded.InBounds 2 2 (-1, 1) ∧
    Unrounded.detect 8 2 2 (-1) 1 pair2x2 = some ⟨-1, 1, 0, 1⟩ ∧
    Unrounded.Contains ⟨-1, 1, 0, 1⟩ (-1) 1 ∧ ¬ Unrounded.RegionInBounds 2 2 ⟨-1, 1, 0, 1⟩ ∧
    ¬ Unrounded.InBounds 2 2 (1/2, 5) ∧
    Unrounded.detect 2 2 2 (1/2) 5 pair2x2 = some ⟨1/2, 5, 1/2, 5⟩ :=
  ⟨by decide!, by decide!,
    ((unrounded_detect_out_of_bounds 2 2 (-1) 1 pair2x2 (by decide!)).2.1 8 ⟨-1, 1, 0, 1⟩
      (by decide!)).1,
    ((unrounded_detect_out_of_bounds 2 2 (-1) 1 pair2x2 (by decide!)).2.1 8 ⟨-1, 1, 0, 1⟩
      (by decide!)).2,
    by decide!,
    (unrounded_detect_out_of_bounds 2 2 (1/2) 5 pair2x2 (by decide!)).2.2 (by decide)
      (by decide!) (by decide!) 0⟩

end ColorVizulizer
